import Mathlib

/-!
# Verification of the AOA (Army of Agents) orchestration core

This development shallowly embeds the orchestration engine of the AOA CLI
(`src/index.ts` and its later revision): the worker pool (`runAgents`), the
per-task lifecycle (`runTask`), the external-command layer (`exec`), the
agent command construction (`buildClaudeCommand`), the best-effort sync step
(`pullLatestChanges` / `getCurrentBranch`), configuration loading
(`loadConfig`), and the argument handling of `main`.

External processes are modelled through an environment that answers, for each
issued command, whether it exited zero and what it wrote to stdout.  The
JavaScript event loop is modelled as an interleaving semantics: each worker is
a sequential program whose `await exec(...)` calls are suspension points, a
spawned command occupies an interval between a start event and a completion
event, and synchronous code between awaits runs atomically.
-/

set_option maxRecDepth 10000

namespace Aoa

/-- The external commands issued by `runTask` / `runAgents` (one constructor
per distinct `exec` / `fs` call site in the source).  String parameters carry
the data the source splices into the command line. -/
inductive Cmd : Type where
  | mkdirBase                      -- `fs.promises.mkdir(base, { recursive: true })`
  | worktreeAdd (id : Nat)         -- `git worktree add ${dir}`
  | revParseGitDir                 -- `git rev-parse --git-dir` (isGitRepo)
  | remoteGetUrl                   -- `git remote get-url origin` (hasRemoteOrigin)
  | branchShowCurrent              -- `git branch --show-current` (getCurrentBranch)
  | statusPorcelain                -- `git status --porcelain=v1 --branch` (fallback)
  | gitFetch                       -- `git fetch origin`
  | gitPull (branch : String)      -- `git pull origin ${currentBranch}`
  | claude (cmdline : String)      -- the agent invocation built by buildClaudeCommand
  | gitAddAll                      -- `git add -A`
  | diffCached                     -- `git diff --cached --exit-code`
  | cfgGetUserName                 -- `git config user.name`
  | cfgSetUserName                 -- `git config user.name "Army of Agents"`
  | cfgGetUserEmail                -- `git config user.email`
  | cfgSetUserEmail                -- `git config user.email "aoa@localhost"`
  | commit (msg : String)          -- `git commit -m "agent-${id}: ${task}"`
  | mergeFF (branch : String)      -- `git merge --ff-only ${path.basename(dir)}`
  | worktreeRemove (id : Nat)      -- `git worktree remove ${dir}`
  deriving DecidableEq, Repr

/-- The `ClaudeConfig` record from the source (agent parameters).  JavaScript `number`
fields that the source only ever converts with `toString()` are carried as
the strings they would print as (`temperature`); `maxTokens` is a natural
number, matching `toString()` on a non-negative integer. -/
structure ClaudeConfig where
  model : Option String := none
  maxTokens : Option Nat := none
  temperature : Option String := none
  timeout : Option Nat := none
  additionalArgs : Option (List String) := none
  autoApprove : Option Bool := none
  deriving DecidableEq, Repr

/-- The `Config` record from the source (resolved global configuration). -/
structure Config where
  claude : Option ClaudeConfig := none
  projectDir : Option String := none
  interactive : Option Bool := none
  autoApprove : Option Bool := none
  deriving DecidableEq, Repr

/-- JavaScript truthiness of an optional boolean field (`undefined` and
`false` are falsy). -/
def jsTruthy (b : Option Bool) : Bool := b.getD false

/-- Embedding of `buildClaudeCommand` from the source: builds the agent command line as a
list of words joined with spaces.  Mirrors the JS truthiness tests
(`if (config.model)` is false for `undefined` and for the empty string,
`if (config.maxTokens)` is false for `undefined` and for `0`,
`config.temperature !== undefined` checks presence only) and appends the raw
task text wrapped in one pair of double quotes: `args.push(`"${task}"`)`. -/
def buildClaudeCommand (task : String) (config : ClaudeConfig) (globalConfig : Config) : String :=
  let args : List String := ["claude"]
  let args := if !(jsTruthy globalConfig.interactive) then args ++ ["--print"] else args
  let args := if (config.model.getD "") ≠ "" then
      args ++ ["--model", config.model.getD ""] else args
  let args := if (config.maxTokens.getD 0) ≠ 0 then
      args ++ ["--max-tokens", toString (config.maxTokens.getD 0)] else args
  let args := match config.temperature with
    | some t => args ++ ["--temperature", t]
    | none => args
  let args := if jsTruthy config.autoApprove || jsTruthy globalConfig.autoApprove then
      args ++ ["--dangerously-skip-permissions"] else args
  let args := match config.additionalArgs with
    | some extra => args ++ extra
    | none => args
  let args := args ++ ["\"" ++ task ++ "\""]
  String.intercalate " " args

/-!
## A model of POSIX shell command-line splitting

`exec` runs every command with `spawn(cmd, [], { shell: true })`, i.e. the
string is handed to `/bin/sh -c`.  For the quoting claim we model the part of
shell parsing that the constructed command lines exercise: splitting into
commands at unquoted `;`, splitting commands into words at unquoted spaces,
and double-quote grouping (a `"…"` region joins into the current word and can
produce an empty word).  Substitution characters are treated as ordinary
characters; the counterexample below only needs quotes and semicolons.
-/

/-- One step of the shell splitter.  Arguments: remaining characters,
inside-double-quotes flag, current word characters, whether a current word has
been started (so `""` yields an empty word), words of the current command,
completed commands. -/
def shellSplitAux : List Char → Bool → List Char → Bool → List String →
    List (List String) → List (List String)
  | [], _, cur, started, ws, cmds =>
      let ws := if started then ws ++ [String.mk cur] else ws
      cmds ++ (if ws.isEmpty then [] else [ws])
  | c :: rest, true, cur, started, ws, cmds =>
      if c = '"' then shellSplitAux rest false cur started ws cmds
      else shellSplitAux rest true (cur ++ [c]) started ws cmds
  | c :: rest, false, cur, started, ws, cmds =>
      if c = '"' then shellSplitAux rest true cur true ws cmds
      else if c = ' ' then
        let ws := if started then ws ++ [String.mk cur] else ws
        shellSplitAux rest false [] false ws cmds
      else if c = ';' then
        let ws := if started then ws ++ [String.mk cur] else ws
        shellSplitAux rest false [] false [] (cmds ++ (if ws.isEmpty then [] else [ws]))
      else shellSplitAux rest false (cur ++ [c]) true ws cmds

/-- Parse a command string the way `/bin/sh -c` splits it: a list of simple
commands (separated by `;`), each a list of argument words. -/
def shellSplit (s : String) : List (List String) :=
  shellSplitAux s.data false [] false [] []

/-!
## The per-task program as a tree of external-command calls

A worker's behaviour between suspension points is deterministic, so one
`runTask` invocation denotes a finite tree: at each node it issues one
external command (`await exec …` / `await fs.promises.mkdir …`) and continues
depending on the command's success flag and captured stdout.  A rejected
`await` whose rejection is not caught is encoded by continuing into a leaf
carrying `.error` of the failing command.
-/

/-- A sequential program that issues external commands.  `exec c k` issues
`c` and continues with `k ok stdout`; `done a` returns `a` (for the whole of
`runTask`, `Except Cmd Unit`: `.ok ()` if the promise resolves, `.error c` if
it rejects, tagged with the command whose failure is being propagated). -/
inductive Proc (α : Type) : Type where
  | done : α → Proc α
  | exec : Cmd → (Bool → String → Proc α) → Proc α

/-- Sequencing of task programs (`await` one sub-procedure, continue with its
value). -/
def Proc.bind {α β : Type} : Proc α → (α → Proc β) → Proc β
  | .done a, f => f a
  | .exec c k, f => .exec c fun b s => (k b s).bind f

/-- The per-command behaviour of the outside world during one task: whether
each command exits zero, and what it prints on stdout. -/
structure TaskEnv where
  resp : Cmd → Bool
  out : Cmd → String

/-- Run a task program to completion against an environment, returning its
value and the ordered list of commands it issued. -/
def runSeq {α : Type} : Proc α → TaskEnv → α × List Cmd
  | .done a, _ => (a, [])
  | .exec c k, e =>
      let p := runSeq (k (e.resp c) (e.out c)) e
      (p.1, c :: p.2)

/-- Embedding of `isGitRepo`: `try { await exec('git rev-parse --git-dir') ; return true }
catch { return false }`. -/
def isGitRepoProc : Proc Bool := .exec .revParseGitDir fun ok _ => .done ok

/-- Embedding of `hasRemoteOrigin`: same pattern around `git remote get-url origin`. -/
def hasRemoteOriginProc : Proc Bool := .exec .remoteGetUrl fun ok _ => .done ok

/-- The character class of the regex `[^.\s]` used by `getCurrentBranch`'s
fallback parse. -/
def isBranchChar (c : Char) : Bool := c ≠ '.' && !c.isWhitespace

/-- First match of the regex `## ([^.\s]+)` in a character list: find the
first position where `## ` is followed by at least one branch character and
return the maximal run of branch characters after it. -/
def findBranchMatch : List Char → Option (List Char)
  | [] => none
  | c :: rest =>
      match c :: rest with
      | '#' :: '#' :: ' ' :: t =>
          let tok := t.takeWhile isBranchChar
          if tok.isEmpty then findBranchMatch rest else some tok
      | _ => findBranchMatch rest

/-- Embedding of `getCurrentBranch`: try `git branch --show-current` and return its trimmed
stdout; on failure fall back to parsing `git status --porcelain=v1 --branch`
with the regex `## ([^.\s]+)`; if that also fails (or does not match), return
the default `"main"`.  Every internal error is caught, so the procedure
always returns a branch name. -/
def getCurrentBranchProc : Proc String :=
  .exec .branchShowCurrent fun ok out =>
    if ok then .done out.trim
    else .exec .statusPorcelain fun ok2 out2 =>
      if ok2 then
        match findBranchMatch out2.data with
        | some tok => .done (String.mk tok)
        | none => .done "main"
      else .done "main"

/-- Embedding of `pullLatestChanges`: resolve the shared workspace's current branch, then
`git fetch origin` and `git pull origin <branch>`.  The whole body is inside
`try { … } catch { warn }`, so any failure of fetch or pull is swallowed and
the procedure returns normally. -/
def pullLatestChangesProc : Proc Unit :=
  getCurrentBranchProc.bind fun branch =>
    .exec .gitFetch fun ok _ =>
      if ok then .exec (.gitPull branch) fun _ _ => .done ()
      else .done ()

/-- The sync prefix of `runTask`'s `try` block:
`if (await isGitRepo(dir) && await hasRemoteOrigin(dir)) await
pullLatestChanges(dir, id, projectDir)` (with JS short-circuiting of `&&`). -/
def syncPart : Proc Unit :=
  isGitRepoProc.bind fun repo =>
    (if repo then hasRemoteOriginProc else .done false).bind fun remote =>
      if repo && remote then pullLatestChangesProc else .done ()

/-- The commit message `"agent-${id}: ${task}"`. -/
def commitMsg (id : Nat) (task : String) : String :=
  "agent-" ++ toString id ++ ": " ++ task

/-- The value `path.basename(dir)` for `dir = .worktrees/agent-${id}`: the worktree's
branch name used by the fast-forward merge. -/
def worktreeBranch (id : Nat) : String := "agent-" ++ toString id

/-- Embedding of `try { await exec(get) } catch { await exec(set) }`: if `get` fails, run
`set`; a failure of `set` is uncaught and rejects the task.  On success
continue with `k`. -/
def ensureGitIdentity (get set : Cmd) (k : Proc (Except Cmd Unit)) :
    Proc (Except Cmd Unit) :=
  .exec get fun ok _ =>
    if ok then k
    else .exec set fun ok2 _ => if ok2 then k else .done (.error set)

/-- The body of `runTask`'s `try` block after the sync step: run the agent
command, `git add -A`, check `git diff --cached --exit-code` (exit zero means
nothing staged: `hasChanges` stays false and commit/merge are skipped), and on
the changes path ensure a git identity, commit, and fast-forward merge back
into the shared workspace. -/
def mainPart (task : String) (id : Nat) (config : Config) : Proc (Except Cmd Unit) :=
  let claudeCmd := buildClaudeCommand task (config.claude.getD {}) config
  .exec (.claude claudeCmd) fun okClaude _ =>
    if !okClaude then .done (.error (.claude claudeCmd))
    else .exec .gitAddAll fun okAdd _ =>
      if !okAdd then .done (.error .gitAddAll)
      else .exec .diffCached fun noStaged _ =>
        if noStaged then
          -- `git diff --cached --exit-code` resolved: nothing staged,
          -- `hasChanges` remains false, commit and merge are skipped.
          .done (.ok ())
        else
          ensureGitIdentity .cfgGetUserName .cfgSetUserName <|
            ensureGitIdentity .cfgGetUserEmail .cfgSetUserEmail <|
              .exec (.commit (commitMsg id task)) fun okCommit _ =>
                if !okCommit then .done (.error (.commit (commitMsg id task)))
                else .exec (.mergeFF (worktreeBranch id)) fun okMerge _ =>
                  .done (if okMerge then .ok () else .error (.mergeFF (worktreeBranch id)))

/-- The whole `try` block of `runTask`. -/
def innerProc (task : String) (id : Nat) (config : Config) : Proc (Except Cmd Unit) :=
  syncPart.bind fun _ => mainPart task id config

/-- The `finally` clause: run `git worktree remove ${dir}`.  Per JavaScript
semantics, if the `finally` block itself throws, its error replaces the
`try` block's outcome (success or failure alike). -/
def teardownProc (id : Nat) (r : Except Cmd Unit) : Proc (Except Cmd Unit) :=
  .exec (.worktreeRemove id) fun ok _ =>
    .done (if ok then r else .error (.worktreeRemove id))

/-- Attach the `finally` teardown to every completion path of a program. -/
def withTeardown (id : Nat) : Proc (Except Cmd Unit) → Proc (Except Cmd Unit)
  | .done r => teardownProc id r
  | .exec c k => .exec c fun b s => withTeardown id (k b s)

/-- Embedding of `runTask` from the source: `mkdir` the worktrees base (an uncaught
rejection), `git worktree add` (an uncaught rejection — the `try` has not
been entered, so no teardown runs), then the `try { sync; agent; stage;
commit; merge } finally { worktree remove }` block. -/
def runTaskProc (task : String) (id : Nat) (config : Config) : Proc (Except Cmd Unit) :=
  .exec .mkdirBase fun okMk _ =>
    if !okMk then .done (.error .mkdirBase)
    else .exec (.worktreeAdd id) fun okAdd _ =>
      if !okAdd then .done (.error (.worktreeAdd id))
      else withTeardown id (innerProc task id config)

/-!
## The worker pool as an interleaving machine

`runAgents` starts `count` copies of `worker(id)` and awaits them with
`Promise.all`.  Each worker repeatedly runs the synchronous claim
`const index = next++` (atomic: no `await` separates the read and the
increment), breaks when the claimed index is past the end, and otherwise
awaits `runTask` for that index.  A scheduler step advances one chosen
worker by one micro-step: performing its atomic claim, starting its next
external command, completing an in-flight command, or returning from
`runTask` (resolving or rejecting the worker's promise — a rejection is
uncaught in `worker`, so the worker stops claiming and `Promise.all`
rejects). -/

/-- The observable state of one worker coroutine. -/
inductive WState : Type where
  | idle                          -- at the top of the `while` loop, about to claim
  | running (tidx : Nat) (p : Proc (Except Cmd Unit))  -- inside `runTask`, next event decided by `p`
  | inflight (tidx : Nat) (c : Cmd) (k : Bool → String → Proc (Except Cmd Unit))
                                  -- a spawned command is executing
  | finished                      -- the worker's loop exited normally (promise resolved)
  | failed (e : Cmd)              -- `runTask` rejected; the worker's promise rejected

/-- Global state: the shared cursor `next`, each worker's state, and the log
of dispatch events `(worker id, task index)` in the order the claims
happened. -/
structure PoolState where
  next : Nat
  workers : List WState
  log : List (Nat × Nat)

/-- Per-worker, per-task behaviour of the outside world. -/
def Env : Type := Nat → Nat → TaskEnv

/-- The pool's initial state: cursor at zero, every worker at the top of its
loop, nothing dispatched. -/
def initPool (count : Nat) : PoolState :=
  ⟨0, List.replicate count .idle, []⟩

/-- One scheduler micro-step of worker `wid`. -/
def wstep (env : Env) (tasks : List String) (config : Config)
    (s : PoolState) (wid : Nat) : PoolState :=
  match s.workers[wid]? with
  | none => s
  | some w =>
    match w with
    | .idle =>
        -- `const index = next++; if (index >= tasks.length) break;`
        let index := s.next
        if h : index < tasks.length then
          { next := s.next + 1,
            workers := s.workers.set wid (.running index (runTaskProc tasks[index] wid config)),
            log := s.log ++ [(wid, index)] }
        else
          { next := s.next + 1, workers := s.workers.set wid .finished, log := s.log }
    | .running tidx p =>
        match p with
        | .done (.ok _) => { s with workers := s.workers.set wid .idle }
        | .done (.error e) => { s with workers := s.workers.set wid (.failed e) }
        | .exec c k => { s with workers := s.workers.set wid (.inflight tidx c k) }
    | .inflight tidx c k =>
        { s with workers :=
            s.workers.set wid (.running tidx (k ((env wid tidx).resp c) ((env wid tidx).out c))) }
    | .finished => s
    | .failed _ => s

/-- Run the pool under an explicit schedule (the list of worker ids picked by
the event loop, one per micro-step). -/
def runPool (env : Env) (tasks : List String) (config : Config)
    (choices : List Nat) (s : PoolState) : PoolState :=
  choices.foldl (wstep env tasks config) s

/-- A worker that is mid-task (between its claim and its return from
`runTask`). -/
def WState.isBusy : WState → Bool
  | .running _ _ => true
  | .inflight _ _ _ => true
  | _ => false

/-- A worker whose loop exited normally. -/
def WState.isFinished : WState → Bool
  | .finished => true
  | _ => false

/-- A worker whose promise rejected. -/
def WState.isFailed : WState → Bool
  | .failed _ => true
  | _ => false

/-- A worker currently executing its fast-forward merge-back command (the
spawned `git merge --ff-only` is alive). -/
def WState.inMerge : WState → Bool
  | .inflight _ (.mergeFF _) _ => true
  | _ => false

/-- Whether `Promise.all` has rejected: some worker's promise rejected.  This happens
at the micro-step that moves a worker to `failed`, regardless of what the
other workers are doing. -/
def promiseAllRejected (s : PoolState) : Bool := s.workers.any WState.isFailed

/-- Every worker's loop has ended (normally or by rejection): no further
micro-step changes the state. -/
def poolTerminated (s : PoolState) : Bool :=
  s.workers.all fun w => w.isFinished || w.isFailed

/-!
## Basic lemmas about task programs
-/

/-- Commands issued by the best-effort sync step (repo check, remote check,
branch discovery, fetch, pull). -/
def isSyncCmd : Cmd → Bool
  | .revParseGitDir => true
  | .remoteGetUrl => true
  | .branchShowCurrent => true
  | .statusPorcelain => true
  | .gitFetch => true
  | .gitPull _ => true
  | _ => false

/-- Commands issued by the post-sync body of `runTask`'s `try` block. -/
def isMainCmd : Cmd → Bool
  | .claude _ => true
  | .gitAddAll => true
  | .diffCached => true
  | .cfgGetUserName => true
  | .cfgSetUserName => true
  | .cfgGetUserEmail => true
  | .cfgSetUserEmail => true
  | .commit _ => true
  | .mergeFF _ => true
  | _ => false

/-- Every command a program can ever issue (on any path, any outputs)
satisfies `P`. -/
def Proc.Only {α : Type} (P : Cmd → Prop) : Proc α → Prop
  | .done _ => True
  | .exec c k => P c ∧ ∀ b s, Proc.Only P (k b s)

/-- The dispatch invariant: the worker list keeps its size; the dispatch log,
projected to task indices, is exactly `0, 1, …, min next len - 1` (FIFO by
original index, nothing skipped among dispatches, nothing duplicated); a
worker whose loop has exited normally has seen the cursor past the end; and
logged worker ids are in range. -/
def PoolInv (tasks : List String) (count : Nat) (s : PoolState) : Prop :=
  s.workers.length = count ∧
  s.log.map Prod.snd = List.range (min s.next tasks.length) ∧
  (∀ w ∈ s.workers, w = WState.finished → tasks.length ≤ s.next) ∧
  (∀ pr ∈ s.log, pr.1 < count)

/-- All external commands succeed; staged-changes check reports nothing
staged. -/
def envAllSucceed : Env := fun _ _ =>
  { resp := fun _ => true, out := fun _ => "" }

/-- All external commands succeed, and `git diff --cached --exit-code` exits
non-zero (changes are staged), so every task takes the commit/merge path. -/
def envStagedChanges : Env := fun _ _ =>
  { resp := fun c => match c with
      | .diffCached => false
      | _ => true,
    out := fun _ => "" }

/-- Every agent invocation fails (exits non-zero); all other commands
succeed. -/
def envAgentAlwaysFails : Env := fun _ _ =>
  { resp := fun c => match c with
      | .claude _ => false
      | _ => true,
    out := fun _ => "" }

/-- The agent invocation fails exactly for worker 1; changes are staged for
everyone else. -/
def envAgentFailsWorkerOne : Env := fun wid _ =>
  { resp := fun c => match c with
      | .claude _ => wid != 1
      | .diffCached => false
      | _ => true,
    out := fun _ => "" }

/-- Every command succeeds except the teardown `git worktree remove`. -/
def envTeardownFails : TaskEnv :=
  { resp := fun c => match c with
      | .worktreeRemove _ => false
      | _ => true,
    out := fun _ => "" }

/-- The agent invocation and the teardown both fail. -/
def envAgentAndTeardownFail : TaskEnv :=
  { resp := fun c => match c with
      | .worktreeRemove _ => false
      | .claude _ => false
      | _ => true,
    out := fun _ => "" }

/-- Every external command of a single task succeeds (and the staged-changes
check reports nothing staged). -/
def envSeqAllOk : TaskEnv := { resp := fun _ => true, out := fun _ => "" }

/-- Every sync command fails; everything else succeeds. -/
def envSyncAllFail : TaskEnv :=
  { resp := fun c => !isSyncCmd c, out := fun _ => "" }

/-!
## Configuration loading (`loadConfig`)

The filesystem is a partial map from paths to contents (`existsSync` is
definedness, a `readFileSync` throw is `none`); `JSON.parse` plus the cast
to the config shape is an oracle `parseCfg`, and for `package.json` the
oracle `parsePkgAoa` returns `none` when parsing throws, `some none` when the
file parses but has no truthy `aoa` field, and `some (some cfg)` otherwise.
-/

/-- The final `try { readFileSync; JSON.parse } catch { warn; return
{ projectDir } }` of `loadConfig`: a read failure or a parse failure yields
the default configuration carrying only `projectDir`. -/
def loadConfigFromPath (fsread : String → Option String)
    (parseCfg : String → Option Config) (projectDir : Option String)
    (p : String) : Config :=
  match fsread p with
  | none => { projectDir := projectDir }
  | some content =>
      match parseCfg content with
      | none => { projectDir := projectDir }
      | some cfg => { cfg with projectDir := projectDir }

/-- Embedding of `loadConfig` from the source: an explicit path is read directly; with no
explicit path, `projectDir/aoa.config.json` is tried, then a truthy `aoa`
field of `projectDir/package.json` (whose parse errors are silently
ignored); otherwise the default `{ projectDir }`. -/
def loadConfig (fsread : String → Option String)
    (parseCfg : String → Option Config)
    (parsePkgAoa : String → Option (Option Config))
    (configPath : Option String) (projectDir : Option String) : Config :=
  match configPath with
  | some p => loadConfigFromPath fsread parseCfg projectDir p
  | none =>
      match projectDir with
      | some pd =>
          if (fsread (pd ++ "/aoa.config.json")).isSome then
            loadConfigFromPath fsread parseCfg projectDir (pd ++ "/aoa.config.json")
          else
            match fsread (pd ++ "/package.json") with
            | some content =>
                match parsePkgAoa content with
                | some (some aoaCfg) => { aoaCfg with projectDir := projectDir }
                | _ => { projectDir := projectDir }
            | none => { projectDir := projectDir }
      | none => { projectDir := projectDir }

/-!
## Argument handling of `main`

`process.argv` handling after the `start <file>` check: `-n`, `-c`,
`--project-dir`, `--interactive`, `--auto-approve`.  `parseInt(s, 10)` is
modelled as JavaScript computes it for radix 10 (skip leading whitespace,
optional sign, leading digit run, `NaN` — here `none` — when no digits);
`path.resolve` is an oracle.  A `process.exit(1)` before any worker starts
is `Except.error ()`.
-/

/-- JavaScript `parseInt(s, 10)`: `none` is `NaN`. -/
def parseIntJS (s : String) : Option Int :=
  let cs := s.data.dropWhile fun c => c.isWhitespace
  let sign : Bool × List Char :=
    match cs with
    | '-' :: t => (true, t)
    | '+' :: t => (false, t)
    | _ => (false, cs)
  let ds := sign.2.takeWhile fun c => c.isDigit
  if ds.isEmpty then none
  else
    let n : Nat := ds.foldl (fun acc c => acc * 10 + (c.toNat - '0'.toNat)) 0
    some (if sign.1 then -(n : Int) else (n : Int))

/-- The agent count before the interactive coercion: `let agents = 1;` then
`const n = rest.indexOf('-n'); if (n !== -1 && rest[n + 1]) agents =
parseInt(rest[n + 1], 10);` (a missing or empty follower is falsy and leaves
the default). -/
def parsedAgentCount (rest : List String) : Option Int :=
  match rest.findIdx? (fun a => a == "-n") with
  | some i =>
      match rest[i + 1]? with
      | some v => if v.isEmpty then some 1 else parseIntJS v
      | none => some 1
  | none => some 1

/-- Flag `-c <path>`: the explicit configuration path, if its follower is truthy. -/
def parsedConfigPath (rest : List String) : Option String :=
  match rest.findIdx? (fun a => a == "-c") with
  | some i =>
      match rest[i + 1]? with
      | some v => if v.isEmpty then none else some v
      | none => none
  | none => none

/-- Flag `--project-dir <path>`: resolved against the working directory, else the
working directory itself. -/
def parsedProjectDir (rest : List String) (cwd : String)
    (resolve : String → String) : String :=
  match rest.findIdx? (fun a => a == "--project-dir") with
  | some i =>
      match rest[i + 1]? with
      | some v => if v.isEmpty then cwd else resolve v
      | none => cwd
  | none => cwd

/-- The resolved options `main` passes on to the pool. -/
structure MainOpts where
  agents : Option Int
  configPath : Option String
  projectDir : String
  interactive : Bool
  autoApprove : Bool
  deriving DecidableEq, Repr

/-- The flag-handling block of `main` (source lines after the usage check):
parse `-n`, `-c`, `--project-dir`; if `--interactive` is present and the
parsed agent count is greater than 1, warn and coerce the count to 1; then
read `--auto-approve`; giving both `--interactive` and `--auto-approve` is a
fatal configuration error (`process.exit(1)`) before any worker starts. -/
def parseMainArgs (rest : List String) (cwd : String)
    (resolve : String → String) : Except Unit MainOpts :=
  let agents := parsedAgentCount rest
  let configPath := parsedConfigPath rest
  let projectDir := parsedProjectDir rest cwd resolve
  let interactive := rest.contains "--interactive"
  let agents :=
    if interactive && (match agents with
        | some a => decide (1 < a)
        | none => false) then
      some 1
    else agents
  let autoApprove := rest.contains "--auto-approve"
  if interactive && autoApprove then .error ()
  else .ok ⟨agents, configPath, projectDir, interactive, autoApprove⟩

theorem Proc.Only.mono {α : Type} {P Q : Cmd → Prop} {p : Proc α}
    (h : p.Only P) (hPQ : ∀ c, P c → Q c) : p.Only Q := by
  induction p with
  | done a => trivial
  | exec c k ih =>
      obtain ⟨hc, hk⟩ := h
      exact ⟨hPQ c hc, fun b s => ih b s (hk b s)⟩

theorem Proc.Only.bind {α β : Type} {P : Cmd → Prop} {p : Proc α}
    {f : α → Proc β} (hp : p.Only P) (hf : ∀ a, (f a).Only P) :
    (p.bind f).Only P := by
  induction p with
  | done a => exact hf a
  | exec c k ih =>
      obtain ⟨hc, hk⟩ := hp
      exact ⟨hc, fun b s => ih b s (hk b s)⟩

/-- Commands appearing in a run's trace all satisfy any property the program
is restricted to. -/
theorem mem_trace_of_Only {α : Type} {P : Cmd → Prop} {p : Proc α}
    (h : p.Only P) (e : TaskEnv) : ∀ c ∈ (runSeq p e).2, P c := by
  induction p with
  | done a => simp [runSeq]
  | exec c k ih =>
      obtain ⟨hc, hk⟩ := h
      intro d hd
      simp only [runSeq, List.mem_cons] at hd
      rcases hd with rfl | hd
      · exact hc
      · exact ih _ _ (hk _ _) d hd

/-- Two environments that agree (exit status and output) on all commands a
program can issue produce identical runs. -/
theorem runSeq_congr {α : Type} {P : Cmd → Prop} {p : Proc α} {e e' : TaskEnv}
    (h : p.Only P) (agree : ∀ c, P c → e.resp c = e'.resp c ∧ e.out c = e'.out c) :
    runSeq p e = runSeq p e' := by
  induction p with
  | done a => rfl
  | exec c k ih =>
      obtain ⟨hc, hk⟩ := h
      obtain ⟨hr, ho⟩ := agree c hc
      simp only [runSeq, hr, ho]
      rw [ih _ _ (hk _ _)]

theorem runSeq_bind {α β : Type} (p : Proc α) (f : α → Proc β) (e : TaskEnv) :
    runSeq (p.bind f) e =
      ((runSeq (f (runSeq p e).1) e).1,
       (runSeq p e).2 ++ (runSeq (f (runSeq p e).1) e).2) := by
  induction p with
  | done a => simp [Proc.bind, runSeq]
  | exec c k ih => simp [Proc.bind, runSeq, ih]

/-- Running a program with the `finally` teardown attached: the teardown
command is always issued, exactly once, after the whole inner trace, and a
failing teardown replaces the inner outcome (JavaScript `finally`
semantics); a successful teardown preserves it. -/
theorem runSeq_withTeardown (id : Nat) (p : Proc (Except Cmd Unit)) (e : TaskEnv) :
    runSeq (withTeardown id p) e =
      ((if e.resp (.worktreeRemove id) then (runSeq p e).1
        else .error (.worktreeRemove id)),
       (runSeq p e).2 ++ [.worktreeRemove id]) := by
  induction p with
  | done a => simp only [withTeardown, teardownProc, runSeq]; split <;> simp
  | exec c k ih => simp [withTeardown, runSeq, ih]

/-- The predicate `Only` distributes over a two-way branch. -/
theorem Proc.Only.ite {α : Type} {P : Cmd → Prop} (c : Prop) [Decidable c]
    {p q : Proc α} (hp : p.Only P) (hq : q.Only P) : (if c then p else q).Only P := by
  split
  · exact hp
  · exact hq

theorem getCurrentBranchProc_only :
    getCurrentBranchProc.Only (fun c => isSyncCmd c = true) := by
  refine ⟨rfl, fun b s => ?_⟩
  refine Proc.Only.ite _ trivial ?_
  refine ⟨rfl, fun b2 s2 => ?_⟩
  refine Proc.Only.ite _ ?_ trivial
  cases findBranchMatch s2.data <;> trivial

theorem pullLatestChangesProc_only :
    pullLatestChangesProc.Only (fun c => isSyncCmd c = true) := by
  refine Proc.Only.bind getCurrentBranchProc_only fun branch => ?_
  refine ⟨rfl, fun b s => ?_⟩
  exact Proc.Only.ite _ ⟨rfl, fun _ _ => trivial⟩ trivial

theorem syncPart_only : syncPart.Only (fun c => isSyncCmd c = true) := by
  refine Proc.Only.bind ⟨rfl, fun b s => trivial⟩ fun repo => ?_
  refine Proc.Only.bind (Proc.Only.ite _ ⟨rfl, fun _ _ => trivial⟩ trivial) fun remote => ?_
  exact Proc.Only.ite _ pullLatestChangesProc_only trivial

theorem ensureGitIdentity_only {P : Cmd → Prop} {get set : Cmd}
    {k : Proc (Except Cmd Unit)} (hget : P get) (hset : P set)
    (hk : k.Only P) : (ensureGitIdentity get set k).Only P := by
  refine ⟨hget, fun b s => ?_⟩
  refine Proc.Only.ite _ hk ?_
  refine ⟨hset, fun b2 s2 => ?_⟩
  exact Proc.Only.ite _ hk trivial

theorem mainPart_only (task : String) (id : Nat) (config : Config) :
    (mainPart task id config).Only (fun c => isMainCmd c = true) := by
  refine ⟨rfl, fun b s => ?_⟩
  refine Proc.Only.ite _ trivial ?_
  refine ⟨rfl, fun b2 s2 => ?_⟩
  refine Proc.Only.ite _ trivial ?_
  refine ⟨rfl, fun b3 s3 => ?_⟩
  refine Proc.Only.ite _ trivial ?_
  refine ensureGitIdentity_only rfl rfl ?_
  refine ensureGitIdentity_only rfl rfl ?_
  refine ⟨rfl, fun b4 s4 => ?_⟩
  refine Proc.Only.ite _ trivial ?_
  exact ⟨rfl, fun _ _ => trivial⟩

/-- If `git worktree add` fails, `runTask` rejects immediately: the trace is
exactly the two provisioning calls and no teardown is attempted (the `try`
block was never entered). -/
theorem runSeq_runTaskProc_addFail (task : String) (id : Nat) (config : Config)
    (e : TaskEnv) (hmk : e.resp .mkdirBase = true)
    (hadd : e.resp (.worktreeAdd id) = false) :
    runSeq (runTaskProc task id config) e =
      (.error (.worktreeAdd id), [.mkdirBase, .worktreeAdd id]) := by
  simp [runTaskProc, runSeq, hmk, hadd]

/-- With provisioning successful, `runTask` denotes: the provisioning calls,
then the sync trace, then the main-body trace, then the unconditional
teardown; the outcome is the main body's outcome unless the teardown itself
fails, in which case the teardown error replaces it. -/
theorem runSeq_runTaskProc_ok (task : String) (id : Nat) (config : Config)
    (e : TaskEnv) (hmk : e.resp .mkdirBase = true)
    (hadd : e.resp (.worktreeAdd id) = true) :
    runSeq (runTaskProc task id config) e =
      ((if e.resp (.worktreeRemove id) then (runSeq (mainPart task id config) e).1
        else .error (.worktreeRemove id)),
       .mkdirBase :: .worktreeAdd id ::
         ((runSeq syncPart e).2 ++ (runSeq (mainPart task id config) e).2 ++
           [.worktreeRemove id])) := by
  simp [runTaskProc, runSeq, hmk, hadd, runSeq_withTeardown, innerProc, runSeq_bind]

/-- With the agent and staging successful and nothing staged (`git diff
--cached --exit-code` exits zero), the main body resolves with no commit and
no merge issued. -/
theorem runSeq_mainPart_noStaged (task : String) (id : Nat) (config : Config)
    (e : TaskEnv)
    (hcl : e.resp (.claude (buildClaudeCommand task (config.claude.getD {}) config)) = true)
    (haa : e.resp .gitAddAll = true) (hdc : e.resp .diffCached = true) :
    runSeq (mainPart task id config) e =
      (.ok (), [.claude (buildClaudeCommand task (config.claude.getD {}) config),
                .gitAddAll, .diffCached]) := by
  simp [mainPart, runSeq, hcl, haa, hdc]

/-- With changes staged (`git diff --cached --exit-code` exits non-zero) and
a configured git identity, the main body commits and then issues the
fast-forward merge. -/
theorem runSeq_mainPart_staged (task : String) (id : Nat) (config : Config)
    (e : TaskEnv)
    (hcl : e.resp (.claude (buildClaudeCommand task (config.claude.getD {}) config)) = true)
    (haa : e.resp .gitAddAll = true) (hdc : e.resp .diffCached = false)
    (hg1 : e.resp .cfgGetUserName = true) (hg2 : e.resp .cfgGetUserEmail = true)
    (hcm : e.resp (.commit (commitMsg id task)) = true) :
    runSeq (mainPart task id config) e =
      ((if e.resp (.mergeFF (worktreeBranch id)) then .ok ()
        else .error (.mergeFF (worktreeBranch id))),
       [.claude (buildClaudeCommand task (config.claude.getD {}) config),
        .gitAddAll, .diffCached, .cfgGetUserName, .cfgGetUserEmail,
        .commit (commitMsg id task), .mergeFF (worktreeBranch id)]) := by
  simp [mainPart, ensureGitIdentity, runSeq, hcl, haa, hdc, hg1, hg2, hcm]

/-- The first command the main body issues is always the agent invocation. -/
theorem claude_mem_mainPart (task : String) (id : Nat) (config : Config)
    (e : TaskEnv) :
    Cmd.claude (buildClaudeCommand task (config.claude.getD {}) config) ∈
      (runSeq (mainPart task id config) e).2 := by
  simp [mainPart, runSeq]

/-- Sync-step commands are none of the workspace, staging, commit, merge, or
agent commands. -/
theorem isSyncCmd_spec (c : Cmd) (h : isSyncCmd c = true) :
    (∀ m, c ≠ .commit m) ∧ (∀ b, c ≠ .mergeFF b) ∧ (∀ j, c ≠ .worktreeAdd j) ∧
    (∀ j, c ≠ .worktreeRemove j) ∧ c ≠ .mkdirBase := by
  cases c <;> simp_all [isSyncCmd]

/-- Main-body commands never touch the workspace lifecycle. -/
theorem isMainCmd_spec (c : Cmd) (h : isMainCmd c = true) :
    (∀ j, c ≠ .worktreeAdd j) ∧ (∀ j, c ≠ .worktreeRemove j) ∧ c ≠ .mkdirBase := by
  cases c <;> simp_all [isMainCmd]

/-- Main-body commands are not sync commands. -/
theorem isMainCmd_not_sync (c : Cmd) (h : isMainCmd c = true) : isSyncCmd c = false := by
  cases c <;> simp_all [isMainCmd, isSyncCmd]

/-!
## Claim theorems: the per-task lifecycle
-/

/-- C4: workspace lifecycle of `runTask`.  If provisioning (`git worktree
add`) fails, the task fails with exactly the provisioning trace and no
teardown is attempted.  If provisioning succeeds, the trace is the
provisioning commands, an inner trace that performs no workspace
provisioning or teardown of its own, and a final unconditional
`git worktree remove` — executed on every path, whether the sync, agent,
commit, or merge steps succeed or fail — so each worker identity has
exactly one workspace per task and it is torn down before the worker claims
its next task. -/
theorem runTask_workspace_lifecycle (task : String) (id : Nat) (config : Config)
    (e : TaskEnv) (hmk : e.resp .mkdirBase = true) :
    (e.resp (.worktreeAdd id) = false →
      runSeq (runTaskProc task id config) e =
        (.error (.worktreeAdd id), [.mkdirBase, .worktreeAdd id])) ∧
    (e.resp (.worktreeAdd id) = true →
      ∃ inner : List Cmd,
        (runSeq (runTaskProc task id config) e).2 =
          [.mkdirBase, .worktreeAdd id] ++ inner ++ [.worktreeRemove id] ∧
        (∀ j, Cmd.worktreeAdd j ∉ inner) ∧
        (∀ j, Cmd.worktreeRemove j ∉ inner) ∧
        Cmd.mkdirBase ∉ inner) := by
  constructor
  · intro hadd
    exact runSeq_runTaskProc_addFail task id config e hmk hadd
  · intro hadd
    have hin : ∀ c ∈ (runSeq syncPart e).2 ++ (runSeq (mainPart task id config) e).2,
        (∀ j, c ≠ .worktreeAdd j) ∧ (∀ j, c ≠ .worktreeRemove j) ∧ c ≠ .mkdirBase := by
      intro c hc
      rcases List.mem_append.mp hc with hc | hc
      · exact (isSyncCmd_spec c (mem_trace_of_Only syncPart_only e c hc)).2.2
      · exact isMainCmd_spec c (mem_trace_of_Only (mainPart_only task id config) e c hc)
    refine ⟨(runSeq syncPart e).2 ++ (runSeq (mainPart task id config) e).2, ?_, ?_, ?_, ?_⟩
    · rw [runSeq_runTaskProc_ok task id config e hmk hadd]
      simp
    · intro j hj
      exact (hin _ hj).1 j rfl
    · intro j hj
      exact (hin _ hj).2.1 j rfl
    · intro hj
      exact (hin _ hj).2.2 rfl

/-- C5: the staged-changes check.  When the agent run and staging
succeed and `git diff --cached --exit-code` exits zero (nothing staged),
`runTask` issues no commit and no merge, still tears the workspace down, and
resolves normally.  When the check exits non-zero (changes present, here
with a configured git identity and a successful commit), the commit and then
the fast-forward merge are both issued, in that order. -/
theorem runTask_staged_check (task : String) (id : Nat) (config : Config)
    (e : TaskEnv)
    (hmk : e.resp .mkdirBase = true) (hadd : e.resp (.worktreeAdd id) = true)
    (hcl : e.resp (.claude (buildClaudeCommand task (config.claude.getD {}) config)) = true)
    (haa : e.resp .gitAddAll = true) (hrm : e.resp (.worktreeRemove id) = true) :
    (e.resp .diffCached = true →
      (runSeq (runTaskProc task id config) e).1 = .ok () ∧
      (∀ m, Cmd.commit m ∉ (runSeq (runTaskProc task id config) e).2) ∧
      (∀ b, Cmd.mergeFF b ∉ (runSeq (runTaskProc task id config) e).2) ∧
      Cmd.worktreeRemove id ∈ (runSeq (runTaskProc task id config) e).2) ∧
    (e.resp .diffCached = false →
      e.resp .cfgGetUserName = true → e.resp .cfgGetUserEmail = true →
      e.resp (.commit (commitMsg id task)) = true →
      List.Sublist [Cmd.commit (commitMsg id task), Cmd.mergeFF (worktreeBranch id)]
        (runSeq (runTaskProc task id config) e).2 ∧
      Cmd.worktreeRemove id ∈ (runSeq (runTaskProc task id config) e).2) := by
  have hsync : ∀ c ∈ (runSeq syncPart e).2, isSyncCmd c = true :=
    mem_trace_of_Only syncPart_only e
  constructor
  · intro hdc
    have hrun := runSeq_runTaskProc_ok task id config e hmk hadd
    rw [runSeq_mainPart_noStaged task id config e hcl haa hdc] at hrun
    rw [hrm] at hrun
    simp only [if_true] at hrun
    refine ⟨?_, ?_, ?_, ?_⟩
    · rw [hrun]
    · intro m hmem
      rw [hrun] at hmem
      simp only [List.mem_cons, List.mem_append] at hmem
      rcases hmem with h | h | (h | h) | h <;> simp_all
      exact (isSyncCmd_spec _ (hsync _ h)).1 m rfl
    · intro b hmem
      rw [hrun] at hmem
      simp only [List.mem_cons, List.mem_append] at hmem
      rcases hmem with h | h | (h | h) | h <;> simp_all
      exact (isSyncCmd_spec _ (hsync _ h)).2.1 b rfl
    · rw [hrun]
      simp
  · intro hdc hg1 hg2 hcm
    have hrun := runSeq_runTaskProc_ok task id config e hmk hadd
    rw [runSeq_mainPart_staged task id config e hcl haa hdc hg1 hg2 hcm] at hrun
    constructor
    · rw [hrun]
      simp only [List.append_assoc]
      refine List.Sublist.cons _ (List.Sublist.cons _ ?_)
      refine List.Sublist.trans ?_ (List.sublist_append_right _ _)
      refine List.Sublist.trans ?_ (List.sublist_append_left _ _)
      refine List.Sublist.cons _ (List.Sublist.cons _ (List.Sublist.cons _
        (List.Sublist.cons _ (List.Sublist.cons _ ?_))))
      exact List.Sublist.refl _
    · rw [hrun]
      simp

/-- C7: the sync step is best-effort.  Two environments that agree on
everything except the sync commands (repo check, remote check, branch
discovery, fetch, pull) — whose exit statuses and outputs may differ
arbitrarily, including every failure mode — produce the same task outcome,
and the agent invocation is reached in every case.  Together with
`pullLatestChangesProc`'s type (its errors are caught internally and it
always returns), this shows a sync failure never causes the task to fail
and `runTask` always proceeds to the agent-execution step. -/
theorem sync_best_effort (task : String) (id : Nat) (config : Config)
    (e e' : TaskEnv)
    (agree : ∀ c, isSyncCmd c = false → e.resp c = e'.resp c ∧ e.out c = e'.out c)
    (hmk : e.resp .mkdirBase = true) (hadd : e.resp (.worktreeAdd id) = true) :
    (runSeq (runTaskProc task id config) e).1 =
      (runSeq (runTaskProc task id config) e').1 ∧
    Cmd.claude (buildClaudeCommand task (config.claude.getD {}) config) ∈
      (runSeq (runTaskProc task id config) e).2 := by
  have hmk' : e'.resp .mkdirBase = true := by
    rw [← (agree Cmd.mkdirBase rfl).1]; exact hmk
  have hadd' : e'.resp (.worktreeAdd id) = true := by
    rw [← (agree (Cmd.worktreeAdd id) rfl).1]; exact hadd
  have hmain : runSeq (mainPart task id config) e = runSeq (mainPart task id config) e' :=
    runSeq_congr (mainPart_only task id config)
      (fun c hc => agree c (isMainCmd_not_sync c hc))
  have hrm : e.resp (.worktreeRemove id) = e'.resp (.worktreeRemove id) :=
    (agree (Cmd.worktreeRemove id) rfl).1
  constructor
  · rw [runSeq_runTaskProc_ok task id config e hmk hadd,
        runSeq_runTaskProc_ok task id config e' hmk' hadd']
    rw [hmain, hrm]
  · rw [runSeq_runTaskProc_ok task id config e hmk hadd]
    simp [claude_mem_mainPart task id config e]

/-- C8 (amended): under JavaScript `finally` semantics, a failing
`git worktree remove` is not transparent: it replaces the task's primary
outcome (whether that outcome was success or the original failure), whereas
a successful teardown preserves the main body's outcome unchanged. -/
theorem teardown_failure_masks (task : String) (id : Nat) (config : Config)
    (e : TaskEnv) (hmk : e.resp .mkdirBase = true)
    (hadd : e.resp (.worktreeAdd id) = true) :
    (e.resp (.worktreeRemove id) = false →
      (runSeq (runTaskProc task id config) e).1 = .error (.worktreeRemove id)) ∧
    (e.resp (.worktreeRemove id) = true →
      (runSeq (runTaskProc task id config) e).1 =
        (runSeq (mainPart task id config) e).1) := by
  have hrun := runSeq_runTaskProc_ok task id config e hmk hadd
  constructor <;> intro hrm <;> rw [hrun] <;> simp [hrm]

/-!
## Pool-level lemmas
-/

theorem wstep_none {env : Env} {tasks : List String} {config : Config}
    {s : PoolState} {wid : Nat} (hg : s.workers[wid]? = none) :
    wstep env tasks config s wid = s := by
  unfold wstep
  rw [hg]

theorem wstep_idle_claim {env : Env} {tasks : List String} {config : Config}
    {s : PoolState} {wid : Nat} (hg : s.workers[wid]? = some .idle)
    (h : s.next < tasks.length) :
    wstep env tasks config s wid =
      { next := s.next + 1,
        workers := s.workers.set wid (.running s.next (runTaskProc tasks[s.next] wid config)),
        log := s.log ++ [(wid, s.next)] } := by
  unfold wstep
  rw [hg]
  simp only [dif_pos h]

theorem wstep_idle_exhausted {env : Env} {tasks : List String} {config : Config}
    {s : PoolState} {wid : Nat} (hg : s.workers[wid]? = some .idle)
    (h : ¬ s.next < tasks.length) :
    wstep env tasks config s wid =
      { next := s.next + 1, workers := s.workers.set wid .finished, log := s.log } := by
  unfold wstep
  rw [hg]
  simp only [dif_neg h]

theorem wstep_running_ok {env : Env} {tasks : List String} {config : Config}
    {s : PoolState} {wid tidx : Nat}
    (hg : s.workers[wid]? = some (.running tidx (.done (.ok ())))) :
    wstep env tasks config s wid = { s with workers := s.workers.set wid .idle } := by
  unfold wstep
  rw [hg]

theorem wstep_running_error {env : Env} {tasks : List String} {config : Config}
    {s : PoolState} {wid tidx : Nat} {e : Cmd}
    (hg : s.workers[wid]? = some (.running tidx (.done (.error e)))) :
    wstep env tasks config s wid =
      { s with workers := s.workers.set wid (.failed e) } := by
  unfold wstep
  rw [hg]

theorem wstep_running_exec {env : Env} {tasks : List String} {config : Config}
    {s : PoolState} {wid tidx : Nat} {c : Cmd}
    {k : Bool → String → Proc (Except Cmd Unit)}
    (hg : s.workers[wid]? = some (.running tidx (.exec c k))) :
    wstep env tasks config s wid =
      { s with workers := s.workers.set wid (.inflight tidx c k) } := by
  unfold wstep
  rw [hg]

theorem wstep_inflight {env : Env} {tasks : List String} {config : Config}
    {s : PoolState} {wid tidx : Nat} {c : Cmd}
    {k : Bool → String → Proc (Except Cmd Unit)}
    (hg : s.workers[wid]? = some (.inflight tidx c k)) :
    wstep env tasks config s wid =
      { s with workers := s.workers.set wid (.running tidx (k ((env wid tidx).resp c) ((env wid tidx).out c))) } := by
  unfold wstep
  rw [hg]

theorem wstep_finished {env : Env} {tasks : List String} {config : Config}
    {s : PoolState} {wid : Nat} (hg : s.workers[wid]? = some .finished) :
    wstep env tasks config s wid = s := by
  unfold wstep
  rw [hg]

theorem wstep_failed {env : Env} {tasks : List String} {config : Config}
    {s : PoolState} {wid : Nat} {e : Cmd} (hg : s.workers[wid]? = some (.failed e)) :
    wstep env tasks config s wid = s := by
  unfold wstep
  rw [hg]

theorem initPool_inv (tasks : List String) (count : Nat) :
    PoolInv tasks count (initPool count) := by
  refine ⟨by simp [initPool], by simp [initPool], ?_, by simp [initPool]⟩
  intro w hw hfin
  rw [List.eq_of_mem_replicate hw] at hfin
  exact absurd hfin (by simp)

theorem wstep_inv {env : Env} {tasks : List String} {config : Config}
    {count : Nat} {s : PoolState} (wid : Nat) (h : PoolInv tasks count s) :
    PoolInv tasks count (wstep env tasks config s wid) := by
  obtain ⟨hlen, hlog, hfin, hwid⟩ := h
  cases hg : s.workers[wid]? with
  | none => rw [wstep_none hg]; exact ⟨hlen, hlog, hfin, hwid⟩
  | some w =>
    have hwlt : wid < s.workers.length := (List.getElem?_eq_some.mp hg).1
    have hmem_set : ∀ (x w' : WState), w' ∈ s.workers.set wid x → w' ∈ s.workers ∨ w' = x :=
      fun x w' hw' => List.mem_or_eq_of_mem_set hw'
    cases w with
    | idle =>
      by_cases hidx : s.next < tasks.length
      · rw [wstep_idle_claim hg hidx]
        refine ⟨by simp [hlen], ?_, ?_, ?_⟩
        · simp only [List.map_append, hlog, List.map_cons, List.map_nil]
          rw [Nat.min_eq_left (Nat.le_of_lt hidx),
              Nat.min_eq_left (Nat.succ_le_of_lt hidx), List.range_succ]
        · intro w' hw' hfin'
          rcases hmem_set _ _ hw' with hw' | hw'
          · exact Nat.le_succ_of_le (hfin w' hw' hfin')
          · rw [hw'] at hfin'
            exact absurd hfin' (by simp)
        · intro pr hpr
          rcases List.mem_append.mp hpr with hpr | hpr
          · exact hwid pr hpr
          · simp only [List.mem_singleton] at hpr
            rw [hpr]
            rw [hlen] at hwlt
            exact hwlt
      · rw [wstep_idle_exhausted hg hidx]
        have hle : tasks.length ≤ s.next := Nat.le_of_not_lt hidx
        refine ⟨by simp [hlen], ?_, ?_, hwid⟩
        · rw [hlog, Nat.min_eq_right hle, Nat.min_eq_right (Nat.le_succ_of_le hle)]
        · intro w' hw' hfin'
          exact Nat.le_succ_of_le hle
    | running tidx p =>
      have hpres : ∀ (x : WState), x ≠ WState.finished →
          PoolInv tasks count { s with workers := s.workers.set wid x } := by
        intro x hx
        refine ⟨by simp [hlen], hlog, ?_, hwid⟩
        intro w' hw' hfin'
        rcases hmem_set _ _ hw' with hw' | hw'
        · exact hfin w' hw' hfin'
        · rw [hw'] at hfin'
          exact absurd hfin' hx
      cases p with
      | done r =>
        cases r with
        | ok u =>
            cases u
            rw [wstep_running_ok hg]
            exact hpres _ (by simp)
        | error e =>
            rw [wstep_running_error hg]
            exact hpres _ (by simp)
      | exec c k =>
          rw [wstep_running_exec hg]
          exact hpres _ (by simp)
    | inflight tidx c k =>
        rw [wstep_inflight hg]
        refine ⟨by simp [hlen], hlog, ?_, hwid⟩
        intro w' hw' hfin'
        rcases hmem_set _ _ hw' with hw' | hw'
        · exact hfin w' hw' hfin'
        · rw [hw'] at hfin'
          exact absurd hfin' (by simp)
    | finished => rw [wstep_finished hg]; exact ⟨hlen, hlog, hfin, hwid⟩
    | failed e => rw [wstep_failed hg]; exact ⟨hlen, hlog, hfin, hwid⟩

theorem runPool_inv {env : Env} {tasks : List String} {config : Config}
    {count : Nat} (choices : List Nat) {s : PoolState} (h : PoolInv tasks count s) :
    PoolInv tasks count (runPool env tasks config choices s) := by
  induction choices generalizing s with
  | nil => exact h
  | cons c cs ih =>
      rw [runPool, List.foldl_cons]
      exact ih (wstep_inv c h)

/-- A list of pairs whose first components are all zero is determined by its
second components. -/
theorem log_const_worker (l : List (Nat × Nat)) (h : ∀ pr ∈ l, pr.1 = 0) :
    l = l.map fun pr => (0, pr.2) := by
  induction l with
  | nil => rfl
  | cons a t ih =>
      have ha := h a (List.mem_cons_self a t)
      have ht := ih fun pr hpr => h pr (List.mem_cons_of_mem a hpr)
      rw [List.map_cons, ← ht]
      rw [show ((0 : Nat), a.2) = a from by rw [← ha]]

/-!
## Claim theorems: the worker pool
-/

/-- C1: there is no Merge Gate in the code.  Under a run where every git
command succeeds and changes are staged, the explicit 56-step schedule
(worker 0 first, then worker 1) drives BOTH workers into a state where their
`git merge --ff-only` child processes are simultaneously alive
(`WState.inMerge`): the merge step of `runTask` is not guarded by any
mutual-exclusion token, so two concurrent Task Runner invocations execute
their merge steps simultaneously. -/
theorem concurrent_merge_back_reachable :
    (runPool envStagedChanges ["t0", "t1"] {}
        (List.replicate 28 0 ++ List.replicate 28 1) (initPool 2)).workers.map
      WState.inMerge = [true, true] := by
  decide

/-- C2 counterexample: with worker count 1 and tasks `["a", "b"]` where
the agent invocation for task 0 fails, the pool reaches a state where every
worker's loop has permanently exited (`poolTerminated`) — `Promise.all` has
settled — yet the dispatch log is `[(0, 0)]`: task 1 was never dispatched to
any worker, contradicting "each task is dispatched to exactly one worker
exactly once … no task skipped". -/
theorem task_skipped_after_failure :
    poolTerminated (runPool envAgentAlwaysFails ["a", "b"] {}
        (List.replicate 20 0) (initPool 1)) = true ∧
    (runPool envAgentAlwaysFails ["a", "b"] {}
        (List.replicate 20 0) (initPool 1)).log = [(0, 0)] := by
  constructor <;> decide

/-- C2 (amended): dispatch discipline of the shared cursor.  For every
environment, task list, configuration, worker count ≥ 1 and schedule:
(1) the dispatch log is exactly the indices `0, 1, …` in FIFO order of the
original index — each task is dispatched to at most one worker at most once,
never duplicated, and never out of order; (2) if the pool completes normally
(every worker's loop exited via the queue-exhausted break), every task was
dispatched exactly once; (3) with worker count 1 the dispatch log (and hence
the execution order) is exactly the input order. -/
theorem dispatch_fifo_exactly_once (env : Env) (tasks : List String)
    (config : Config) (count : Nat) (choices : List Nat) (hc : 0 < count) :
    (runPool env tasks config choices (initPool count)).log.map Prod.snd =
      List.range
        (min (runPool env tasks config choices (initPool count)).next tasks.length) ∧
    ((∀ w ∈ (runPool env tasks config choices (initPool count)).workers,
        w = WState.finished) →
      (runPool env tasks config choices (initPool count)).log.map Prod.snd =
        List.range tasks.length) ∧
    (count = 1 →
      (runPool env tasks config choices (initPool count)).log =
        (List.range
            (min (runPool env tasks config choices (initPool count)).next
              tasks.length)).map fun i => (0, i)) := by
  obtain ⟨hlen, hlog, hfin, hwid⟩ := runPool_inv choices (initPool_inv tasks count)
  refine ⟨hlog, ?_, ?_⟩
  · intro hall
    have hne : (runPool env tasks config choices (initPool count)).workers ≠ [] :=
      List.length_pos.mp (by rw [hlen]; exact hc)
    obtain ⟨w, hw⟩ := List.exists_mem_of_ne_nil _ hne
    have hle := hfin w hw (hall w hw)
    rw [hlog, Nat.min_eq_right hle]
  · intro h1
    have hz : ∀ pr ∈ (runPool env tasks config choices (initPool count)).log,
        pr.1 = 0 := fun pr hpr => Nat.lt_one_iff.mp (h1 ▸ hwid pr hpr)
    conv_lhs => rw [log_const_worker _ hz]
    rw [show (fun pr : Nat × Nat => ((0 : Nat), pr.2)) =
          (fun i : Nat => ((0 : Nat), i)) ∘ Prod.snd from rfl,
        ← List.map_map, hlog]

theorem dispatch_fifo_exactly_once_witness :
    (runPool envAllSucceed ["solo"] {} [0] (initPool 1)).log.map Prod.snd =
      List.range (min (runPool envAllSucceed ["solo"] {} [0] (initPool 1)).next 1) ∧
    ((∀ w ∈ (runPool envAllSucceed ["solo"] {} [0] (initPool 1)).workers,
        w = WState.finished) →
      (runPool envAllSucceed ["solo"] {} [0] (initPool 1)).log.map Prod.snd =
        List.range 1) ∧
    (1 = 1 →
      (runPool envAllSucceed ["solo"] {} [0] (initPool 1)).log =
        (List.range
            (min (runPool envAllSucceed ["solo"] {} [0] (initPool 1)).next 1)).map
          fun i => (0, i)) :=
  dispatch_fifo_exactly_once envAllSucceed ["solo"] {} 1 [0] (by decide)

/-- C3 counterexample: with two workers, worker 1's agent fails fast
while worker 0 is still mid-task.  The explicit schedule reaches a state
where a worker promise has rejected — so `Promise.all`, which rejects as
soon as any input promise rejects, has already surfaced the failure — while
worker 0 is still busy (`isBusy`) inside its own `runTask`.  This
contradicts both "completes only after every dispatched Task Runner
invocation has completed" and "the first failure is surfaced only after all
workers have finished their current task". -/
theorem failure_surfaces_before_workers_finish :
    promiseAllRejected (runPool envAgentFailsWorkerOne ["t0", "t1"] {}
        (List.replicate 16 0 ++ List.replicate 20 1) (initPool 2)) = true ∧
    (runPool envAgentFailsWorkerOne ["t0", "t1"] {}
        (List.replicate 16 0 ++ List.replicate 20 1) (initPool 2)).workers.map
      WState.isBusy = [true, false] := by
  constructor <;> decide

/-- C3 (amended): failure isolation.  A worker's next micro-step depends
only on the shared cursor and that worker's own state: two pool states that
agree on `next` and on worker `wid`'s state — regardless of any other
worker having failed — give worker `wid` the same successor state and the
same cursor.  Hence one task's failure never cancels or alters other
in-flight tasks; what fails on the code is only the claim's timing part
(`Promise.all` surfaces the first failure immediately, see the
counterexample). -/
theorem worker_progress_independent (env : Env) (tasks : List String)
    (config : Config) (wid : Nat) (s1 s2 : PoolState) (hn : s1.next = s2.next)
    (hw : s1.workers[wid]? = s2.workers[wid]?) :
    (wstep env tasks config s1 wid).workers[wid]? =
      (wstep env tasks config s2 wid).workers[wid]? ∧
    (wstep env tasks config s1 wid).next = (wstep env tasks config s2 wid).next := by
  cases hg1 : s1.workers[wid]? with
  | none =>
      have hg2 : s2.workers[wid]? = none := hw.symm.trans hg1
      rw [wstep_none hg1, wstep_none hg2]
      exact ⟨hg1.trans hg2.symm, hn⟩
  | some w =>
      have hg2 : s2.workers[wid]? = some w := hw.symm.trans hg1
      have h1lt : wid < s1.workers.length := (List.getElem?_eq_some.mp hg1).1
      have h2lt : wid < s2.workers.length := (List.getElem?_eq_some.mp hg2).1
      have hsame : ∀ x : WState,
          (s1.workers.set wid x)[wid]? = (s2.workers.set wid x)[wid]? := by
        intro x
        rw [List.getElem?_set_eq_of_lt _ h1lt, List.getElem?_set_eq_of_lt _ h2lt]
      cases w with
      | idle =>
          by_cases hidx : s1.next < tasks.length
          · rw [wstep_idle_claim hg1 hidx, wstep_idle_claim hg2 (hn ▸ hidx)]
            constructor
            · rw [List.getElem?_set_eq_of_lt _ h1lt, List.getElem?_set_eq_of_lt _ h2lt]
              simp [hn]
            · simp [hn]
          · rw [wstep_idle_exhausted hg1 hidx, wstep_idle_exhausted hg2 (hn ▸ hidx)]
            exact ⟨hsame _, by simp [hn]⟩
      | running tidx p =>
          cases p with
          | done r =>
              cases r with
              | ok u =>
                  cases u
                  rw [wstep_running_ok hg1, wstep_running_ok hg2]
                  exact ⟨hsame _, hn⟩
              | error e =>
                  rw [wstep_running_error hg1, wstep_running_error hg2]
                  exact ⟨hsame _, hn⟩
          | exec c k =>
              rw [wstep_running_exec hg1, wstep_running_exec hg2]
              exact ⟨hsame _, hn⟩
      | inflight tidx c k =>
          rw [wstep_inflight hg1, wstep_inflight hg2]
          exact ⟨hsame _, hn⟩
      | finished =>
          rw [wstep_finished hg1, wstep_finished hg2]
          exact ⟨hg1.trans hg2.symm, hn⟩
      | failed e =>
          rw [wstep_failed hg1, wstep_failed hg2]
          exact ⟨hg1.trans hg2.symm, hn⟩

theorem worker_progress_independent_witness :
    (wstep envAllSucceed ["t"] {} (initPool 2) 0).workers[0]? =
      (wstep envAllSucceed ["t"] {}
        ⟨0, [WState.idle, WState.failed .gitAddAll], []⟩ 0).workers[0]? ∧
    (wstep envAllSucceed ["t"] {} (initPool 2) 0).next =
      (wstep envAllSucceed ["t"] {}
        ⟨0, [WState.idle, WState.failed .gitAddAll], []⟩ 0).next :=
  worker_progress_independent envAllSucceed ["t"] {} 0 (initPool 2)
    ⟨0, [WState.idle, WState.failed .gitAddAll], []⟩ rfl rfl

/-!
## Claim theorems: quoting, teardown masking, and their witnesses
-/

/-- C6: the task text is not defensively escaped.  `buildClaudeCommand`
wraps the raw task text in one pair of double quotes (`args.push(`"${task}"`)`),
so a task text containing a double quote escapes the quoting: for the task
`x"; echo pwned; "` the constructed command line, as split by the shell that
`exec` hands it to (`spawn(cmd, [], { shell: true })`), is THREE commands —
`claude --print x`, the injected `echo pwned`, and an empty-word command —
rather than one command with the task as its single final argument.  (For a
metacharacter-free task the text is passed as a single final argument, so the
failure is precisely the missing escaping.) -/
theorem task_text_shell_injection :
    buildClaudeCommand "x\"; echo pwned; \"" {} {} =
      "claude --print \"x\"; echo pwned; \"\"" ∧
    shellSplit (buildClaudeCommand "x\"; echo pwned; \"" {} {}) =
      [["claude", "--print", "x"], ["echo", "pwned"], [""]] ∧
    shellSplit (buildClaudeCommand "fix the bug" {} {}) =
      [["claude", "--print", "fix the bug"]] := by
  refine ⟨rfl, by decide, by decide⟩

/-- C8 counterexample: a teardown failure DOES change the task's primary
outcome.  First conjunct: every prior step succeeded (a normal no-change
task), yet the task rejects with the teardown error — not reported as a
success.  Second conjunct: the agent failed first, yet the reported error is
the teardown error, masking the original failure — both contradicting
"teardown errors do not mask the task's primary success/failure outcome". -/
theorem teardown_error_changes_outcome :
    (runSeq (runTaskProc "t" 0 {}) envTeardownFails).1 =
      .error (.worktreeRemove 0) ∧
    (runSeq (runTaskProc "t" 0 {}) envAgentAndTeardownFail).1 =
      .error (.worktreeRemove 0) := by
  exact ⟨rfl, rfl⟩

theorem runTask_workspace_lifecycle_witness :
    (envSeqAllOk.resp (.worktreeAdd 0) = false →
      runSeq (runTaskProc "t" 0 {}) envSeqAllOk =
        (.error (.worktreeAdd 0), [.mkdirBase, .worktreeAdd 0])) ∧
    (envSeqAllOk.resp (.worktreeAdd 0) = true →
      ∃ inner : List Cmd,
        (runSeq (runTaskProc "t" 0 {}) envSeqAllOk).2 =
          [.mkdirBase, .worktreeAdd 0] ++ inner ++ [.worktreeRemove 0] ∧
        (∀ j, Cmd.worktreeAdd j ∉ inner) ∧
        (∀ j, Cmd.worktreeRemove j ∉ inner) ∧
        Cmd.mkdirBase ∉ inner) :=
  runTask_workspace_lifecycle "t" 0 {} envSeqAllOk rfl

theorem runTask_staged_check_witness :
    (envSeqAllOk.resp .diffCached = true →
      (runSeq (runTaskProc "t" 0 {}) envSeqAllOk).1 = .ok () ∧
      (∀ m, Cmd.commit m ∉ (runSeq (runTaskProc "t" 0 {}) envSeqAllOk).2) ∧
      (∀ b, Cmd.mergeFF b ∉ (runSeq (runTaskProc "t" 0 {}) envSeqAllOk).2) ∧
      Cmd.worktreeRemove 0 ∈ (runSeq (runTaskProc "t" 0 {}) envSeqAllOk).2) ∧
    (envSeqAllOk.resp .diffCached = false →
      envSeqAllOk.resp .cfgGetUserName = true →
      envSeqAllOk.resp .cfgGetUserEmail = true →
      envSeqAllOk.resp (.commit (commitMsg 0 "t")) = true →
      List.Sublist [Cmd.commit (commitMsg 0 "t"), Cmd.mergeFF (worktreeBranch 0)]
        (runSeq (runTaskProc "t" 0 {}) envSeqAllOk).2 ∧
      Cmd.worktreeRemove 0 ∈ (runSeq (runTaskProc "t" 0 {}) envSeqAllOk).2) :=
  runTask_staged_check "t" 0 {} envSeqAllOk rfl rfl rfl rfl rfl

theorem sync_best_effort_witness :
    (runSeq (runTaskProc "t" 0 {}) envSeqAllOk).1 =
      (runSeq (runTaskProc "t" 0 {}) envSyncAllFail).1 ∧
    Cmd.claude (buildClaudeCommand "t" (({} : Config).claude.getD {}) {}) ∈
      (runSeq (runTaskProc "t" 0 {}) envSeqAllOk).2 :=
  sync_best_effort "t" 0 {} envSeqAllOk envSyncAllFail
    (fun c hc => by simp [envSeqAllOk, envSyncAllFail, hc]) rfl rfl

theorem teardown_failure_masks_witness :
    (envSeqAllOk.resp (.worktreeRemove 0) = false →
      (runSeq (runTaskProc "t" 0 {}) envSeqAllOk).1 =
        .error (.worktreeRemove 0)) ∧
    (envSeqAllOk.resp (.worktreeRemove 0) = true →
      (runSeq (runTaskProc "t" 0 {}) envSeqAllOk).1 =
        (runSeq (mainPart "t" 0 {}) envSeqAllOk).1) :=
  teardown_failure_masks "t" 0 {} envSeqAllOk rfl rfl

/-- C9: an unreadable or invalid configuration file never aborts the
run.  Whenever the named config file cannot be read, or reads but fails to
parse as JSON, `loadConfig` catches the error and returns the default
configuration carrying only `projectDir` — the pool then proceeds with
default agent parameters. -/
theorem loadConfig_bad_file_defaults (fsread : String → Option String)
    (parseCfg : String → Option Config)
    (parsePkgAoa : String → Option (Option Config)) (p : String)
    (projectDir : Option String)
    (hbad : fsread p = none ∨ ∀ s, fsread p = some s → parseCfg s = none) :
    loadConfig fsread parseCfg parsePkgAoa (some p) projectDir =
      { projectDir := projectDir } := by
  rcases hbad with h | h
  · simp [loadConfig, loadConfigFromPath, h]
  · cases hc : fsread p with
    | none => simp [loadConfig, loadConfigFromPath, hc]
    | some content => simp [loadConfig, loadConfigFromPath, hc, h content hc]

theorem loadConfig_bad_file_defaults_witness :
    loadConfig (fun _ => some "not json") (fun _ => none) (fun _ => none)
      (some "/proj/aoa.config.json") (some "/proj") =
      { projectDir := some "/proj" } :=
  loadConfig_bad_file_defaults (fun _ => some "not json") (fun _ => none)
    (fun _ => none) "/proj/aoa.config.json" (some "/proj")
    (Or.inr fun _ _ => rfl)

/-- C10: `--interactive` forces a single agent and excludes
`--auto-approve`.  With `--interactive` present: if `--auto-approve` is also
present, `main` exits fatally before any worker starts; otherwise, whenever
the `-n` count parsed to a value greater than 1, the options handed to the
pool carry agent count exactly 1 (after the warning) with interactive mode
set. -/
theorem interactive_flag_handling (rest : List String) (cwd : String)
    (resolve : String → String) (hint : rest.contains "--interactive" = true) :
    (rest.contains "--auto-approve" = true →
      parseMainArgs rest cwd resolve = .error ()) ∧
    (rest.contains "--auto-approve" = false →
      ∀ a : Int, parsedAgentCount rest = some a → 1 < a →
        parseMainArgs rest cwd resolve =
          .ok ⟨some 1, parsedConfigPath rest, parsedProjectDir rest cwd resolve,
               true, false⟩) := by
  have hint' : "--interactive" ∈ rest := by simpa using hint
  constructor
  · intro hauto
    have hauto' : "--auto-approve" ∈ rest := by simpa using hauto
    simp [parseMainArgs, hint', hauto']
  · intro hauto a ha hgt
    have hauto' : "--auto-approve" ∉ rest := by simpa using hauto
    simp [parseMainArgs, hint', hauto', ha, hgt]

theorem interactive_flag_handling_witness :
    ((["-n", "3", "--interactive"] : List String).contains "--auto-approve" = true →
      parseMainArgs ["-n", "3", "--interactive"] "/cwd" id = .error ()) ∧
    ((["-n", "3", "--interactive"] : List String).contains "--auto-approve" = false →
      ∀ a : Int, parsedAgentCount ["-n", "3", "--interactive"] = some a → 1 < a →
        parseMainArgs ["-n", "3", "--interactive"] "/cwd" id =
          .ok ⟨some 1, parsedConfigPath ["-n", "3", "--interactive"],
               parsedProjectDir ["-n", "3", "--interactive"] "/cwd" id,
               true, false⟩) :=
  interactive_flag_handling ["-n", "3", "--interactive"] "/cwd" id (by decide)

end Aoa
